import Mathlib

/-!
Verification of `scripts/remove_white_background.py`.

The script detects a background colour from the four corner pixels of an
image and rewrites every pixel whose Manhattan (L1) RGB distance from that
colour is within a tolerance to a fully transparent pixel.  This file gives
a shallow embedding of the script's core data and control flow:

* `Pixel`, `RGB`, `RGBA`, `Image` — the data model (`img.getdata()` yields a
  row-major flattened sequence of 3- or 4-channel integer tuples);
* `Pixel.toRGBA` — `img.convert('RGBA')` applied per pixel;
* `corners`, `mostCommon1`, `detectBg` — background detection (lines 40-50),
  with `mostCommon1` modelling `Counter(corner_colors).most_common(1)[0][0]`:
  highest count, ties broken by first insertion (first-encountered) order;
* `removeBgLoop` — the per-pixel classification loop (lines 58-75);
* `removeBackground` — the in-memory transform of `remove_background`;
* `pySplitext`, `defaultOutputPath` — the default output path (lines 81-83);
* `pyParseInt`, `mainTolerance` — tolerance parsing in `main` (lines 173-177);
* `processDirectoryLoop` — the per-file batch loop of `process_directory`
  (lines 130-148), which calls the module-level name
  `remove_white_background`.
-/

namespace RemoveWhiteBg

/-- An RGB triple, as produced by `tuple(corner[:3])`.  Channel values are
integers (PIL supplies values in `[0,255]`). -/
structure RGB where
  r : Int
  g : Int
  b : Int
deriving DecidableEq, Repr

/-- A pixel as yielded by `img.getdata()`: RGB channels plus an optional
alpha channel (`none` models a 3-tuple from an image without alpha). -/
structure Pixel where
  r : Int
  g : Int
  b : Int
  a : Option Int
deriving DecidableEq, Repr

/-- A 4-tuple `(r, g, b, alpha)` as appended to `new_data`. -/
structure RGBA where
  r : Int
  g : Int
  b : Int
  a : Int
deriving DecidableEq, Repr

/-- `tuple(item[:3])`: the RGB channels of a pixel, alpha dropped. -/
def Pixel.rgb (p : Pixel) : RGB := ⟨p.r, p.g, p.b⟩

/-- `img.convert('RGBA')` applied to one pixel: a pixel that already has an
alpha channel keeps it, a 3-channel pixel gains alpha 255 (fully opaque). -/
def Pixel.toRGBA (p : Pixel) : Pixel := ⟨p.r, p.g, p.b, some (p.a.getD 255)⟩

/-- A decoded image: dimensions plus the row-major flattened pixel sequence
(`img.getdata()`), where the pixel at coordinate `(x, y)` sits at index
`y * width + x`. -/
structure Image where
  width : Nat
  height : Nat
  data : List Pixel
deriving DecidableEq, Repr

/-! ### Background detection (lines 40-50) -/

/-- Key-order pass of `Counter(l)`: walk `l` keeping the keys already seen,
emitting each distinct element at its first occurrence. -/
def firstOccsAux {α : Type} [DecidableEq α] : List α → List α → List α
  | [], _ => []
  | x :: xs, seen =>
    if x ∈ seen then firstOccsAux xs seen else x :: firstOccsAux xs (x :: seen)

/-- The list of distinct elements of `l` in order of first occurrence: the
insertion (key) order of `Counter(l)` / a Python dict built from `l`. -/
def firstOccs {α : Type} [DecidableEq α] (l : List α) : List α :=
  firstOccsAux l []

/-- Selection pass of `Counter.most_common(1)`: among the candidate keys
`ys` (in insertion order), pick the one with the greatest count in `l`; on a
tie the earlier key wins (the stable descending sort of `most_common`). -/
def mostCommonGo {α : Type} [DecidableEq α] (l : List α) : List α → Option α
  | [] => none
  | x :: xs =>
    match mostCommonGo l xs with
    | none => some x
    | some m => if l.count x < l.count m then some m else some x

/-- `Counter(l).most_common(1)[0][0]`: the element of `l` with the highest
occurrence count, ties broken by first-encountered order (`none` only for an
empty list, where Python would raise `IndexError`). -/
def mostCommon1 {α : Type} [DecidableEq α] (l : List α) : Option α :=
  mostCommonGo l (firstOccs l)

/-- The four corner samples of lines 40-45: `data[0]`, `data[W - 1]`,
`data[W * (H - 1)]`, `data[W * H - 1]`, each reduced to its RGB triple
(line 49).  `none` models the `IndexError` of an out-of-range subscript. -/
def corners (W H : Nat) (data : List Pixel) : Option (List RGB) :=
  match data[0]?, data[W - 1]?, data[W * (H - 1)]?, data[W * H - 1]? with
  | some c0, some c1, some c2, some c3 => some [c0.rgb, c1.rgb, c2.rgb, c3.rgb]
  | _, _, _, _ => none

/-- Lines 40-50: sample the four corners of the flattened data and take the
most common corner colour as the background colour. -/
def detectBg (W H : Nat) (data : List Pixel) : Option RGB :=
  (corners W H data).bind mostCommon1

/-! ### Per-pixel classification loop (lines 58-75) -/

/-- Line 63: `abs(r - bg[0]) + abs(g - bg[1]) + abs(b - bg[2])`, the
Manhattan / L1 distance between two RGB triples. -/
def colorDistance (c bg : RGB) : Int :=
  |c.r - bg.r| + |c.g - bg.g| + |c.b - bg.b|

/-- The body of the loop of lines 58-75 for a single `item`: if the colour
distance from the background is at most `tolerance`, emit `(r, g, b, 0)`;
otherwise keep the item (it already has an alpha channel) or emit
`(r, g, b, 255)` (it had none). -/
def classifyPixel (bg : RGB) (tolerance : Int) (item : Pixel) : RGBA :=
  if colorDistance item.rgb bg ≤ tolerance then
    ⟨item.r, item.g, item.b, 0⟩
  else
    match item.a with
    | some a => ⟨item.r, item.g, item.b, a⟩
    | none => ⟨item.r, item.g, item.b, 255⟩

/-- The loop of lines 58-75: build `new_data` and `pixels_changed` by
walking the flattened pixel data in order. -/
def removeBgLoop (bg : RGB) (tolerance : Int) : List Pixel → List RGBA × Nat
  | [] => ([], 0)
  | item :: rest =>
    let colorDist := |item.r - bg.r| + |item.g - bg.g| + |item.b - bg.b|
    let res := removeBgLoop bg tolerance rest
    if colorDist ≤ tolerance then
      (⟨item.r, item.g, item.b, 0⟩ :: res.1, res.2 + 1)
    else
      match item.a with
      | some a => (⟨item.r, item.g, item.b, a⟩ :: res.1, res.2)
      | none => (⟨item.r, item.g, item.b, 255⟩ :: res.1, res.2)

/-- An RGBA 4-tuple of `new_data` viewed again as a stored pixel after
`img.putdata(new_data)` (the image is in RGBA mode, so alpha is present). -/
def RGBA.toPixel (q : RGBA) : Pixel := ⟨q.r, q.g, q.b, some q.a⟩

/-- The in-memory transform of `remove_background` (lines 33-78): convert
the image to RGBA, detect the background colour from the corners, run the
classification loop, and put the new data back into the image.  Returns the
transformed image, the detected background colour (printed at line 52) and
`pixels_changed` (printed at line 89); `none` models an exception reaching
the `except` of line 94. -/
def removeBackground (img : Image) (tolerance : Int) : Option (Image × RGB × Nat) :=
  match detectBg img.width img.height (img.data.map Pixel.toRGBA) with
  | none => none
  | some bgColor =>
    some (⟨img.width, img.height,
            (removeBgLoop bgColor tolerance (img.data.map Pixel.toRGBA)).1.map RGBA.toPixel⟩,
          bgColor,
          (removeBgLoop bgColor tolerance (img.data.map Pixel.toRGBA)).2)

/-! ### Spec-side background detection

The specification words detection as: count occurrences of each distinct RGB
triple among the four corner samples, addressed by their `(x, y)` image
coordinates, and return the triple with the highest count, ties broken by
first-encountered order in the sampling sequence. -/

/-- Spec wording of `most_common`: the first element of `l` (in sampling
order) whose occurrence count in `l` is maximal. -/
def specMostCommon {α : Type} [DecidableEq α] (l : List α) : Option α :=
  l.find? fun x => decide (∀ y ∈ l, l.count y ≤ l.count x)

/-- Spec wording of the corner samples: the pixels at image coordinates
top-left `(0,0)`, top-right `(W-1,0)`, bottom-left `(0,H-1)`, bottom-right
`(W-1,H-1)`, where coordinate `(x, y)` is flattened index `y * W + x`, each
reduced to its RGB triple. -/
def specCornerSamples (W H : Nat) (data : List Pixel) : List RGB :=
  [(0, 0), (W - 1, 0), (0, H - 1), (W - 1, H - 1)].filterMap
    fun c => (data[c.2 * W + c.1]?).map Pixel.rgb

/-- Detection as the specification words it: the most frequent corner
sample, ties broken by first-encountered order. -/
def specDetectBg (W H : Nat) (data : List Pixel) : Option RGB :=
  specMostCommon (specCornerSamples W H data)

/-! ### Default output path (lines 81-83) -/

/-- The characters `os.path.splitext` treats as extension separator and
path separator on posix. -/
def extsep : Char := '.'

/-- Posix path separator. -/
def pathsep : Char := '/'

/-- Index of the last occurrence of `c` in `cs`, or `none`: `str.rfind`. -/
def lastIdx (c : Char) : List Char → Option Nat
  | [] => none
  | x :: xs =>
    match lastIdx c xs with
    | some i => some (i + 1)
    | none => if x = c then some 0 else none

/-- The index at which the extension of path `p` starts, or `p.length` when
`p` has no extension: the split point of `os.path.genericpath._splitext`.
The extension starts at the last dot, provided it lies after the last path
separator and some character of the basename before it is not a dot (leading
dots of the basename do not start an extension: `.bashrc` has none). -/
def splitextPos (cs : List Char) : Nat :=
  match lastIdx extsep cs with
  | none => cs.length
  | some d =>
    let fstart : Nat :=
      match lastIdx pathsep cs with
      | none => 0
      | some s => s + 1
    if fstart ≤ d ∧ ((cs.drop fstart).take (d - fstart)).any (fun c => decide (c ≠ extsep)) then
      d
    else cs.length

/-- `os.path.splitext p`: `(root, ext)` with `root ++ ext = p`. -/
def pySplitext (p : String) : String × String :=
  (String.mk (p.toList.take (splitextPos p.toList)),
   String.mk (p.toList.drop (splitextPos p.toList)))

/-- Lines 81-83: when `output_path` is `None`, the output path is
`f"{base}_transparent{ext}"` where `base, ext = os.path.splitext(input_path)`. -/
def defaultOutputPath (inputPath : String) : String :=
  String.mk (inputPath.toList.take (splitextPos inputPath.toList)
    ++ "_transparent".toList
    ++ inputPath.toList.drop (splitextPos inputPath.toList))

/-! ### Tolerance parsing in `main` (lines 162-177) -/

/-- The code points Python's `int(str)` treats as whitespace: CPython's
`_PyUnicode_TransformDecimalAndSpaceToASCII` rewrites each of them to an
ASCII space before the numeric scan (the Unicode `White_Space` set). -/
def pyIntWhitespace : List Nat :=
  [0x9, 0xA, 0xB, 0xC, 0xD, 0x20, 0x85, 0xA0, 0x1680,
   0x2000, 0x2001, 0x2002, 0x2003, 0x2004, 0x2005, 0x2006, 0x2007,
   0x2008, 0x2009, 0x200A, 0x2028, 0x2029, 0x202F, 0x205F, 0x3000]

/-- Whether `int(str)` treats `c` as whitespace. -/
def pyIsSpace (c : Char) : Bool := pyIntWhitespace.contains c.toNat

/-- First code points of the runs of ten consecutive Unicode decimal
digits (category Nd, digit values 0-9 in code-point order), which
CPython's `int(str)` rewrites to the ASCII digits before the numeric
scan (`Py_UNICODE_TODECIMAL`). -/
def pyDigitRunStarts : List Nat :=
  [0x30, 0x660, 0x6F0, 0x7C0, 0x966, 0x9E6, 0xA66, 0xAE6, 0xB66, 0xBE6,
   0xC66, 0xCE6, 0xD66, 0xDE6, 0xE50, 0xED0, 0xF20, 0x1040, 0x1090, 0x17E0,
   0x1810, 0x1946, 0x19D0, 0x1A80, 0x1A90, 0x1B50, 0x1BB0, 0x1C40, 0x1C50, 0xA620,
   0xA8D0, 0xA900, 0xA9D0, 0xA9F0, 0xAA50, 0xABF0, 0xFF10, 0x104A0, 0x10D30, 0x11066,
   0x110F0, 0x11136, 0x111D0, 0x112F0, 0x11450, 0x114D0, 0x11650, 0x116C0, 0x11730, 0x118E0,
   0x11950, 0x11C50, 0x11D50, 0x11DA0, 0x16A60, 0x16AC0, 0x16B50, 0x1D7CE, 0x1D7D8, 0x1D7E2,
   0x1D7EC, 0x1D7F6, 0x1E140, 0x1E2F0, 0x1E950, 0x1FBF0]

/-- The decimal value of a Unicode decimal digit, `none` for any other
character. -/
def pyDigitVal (c : Char) : Option Nat :=
  (pyDigitRunStarts.find? fun s => decide (s ≤ c.toNat ∧ c.toNat < s + 10)).map
    fun s => c.toNat - s

/-- The base-10 digit scan of `_PyLong_FromString` after the first digit:
further digits accumulate; an underscore must sit between two digits
(PEP 515 grouping); trailing whitespace may close the literal; anything
else raises `ValueError`. -/
def pyIntRest : List Char → Nat → Option Nat
  | [], acc => some acc
  | c :: rest, acc =>
    match pyDigitVal c with
    | some d => pyIntRest rest (acc * 10 + d)
    | none =>
      if c = '_' then
        match rest with
        | c2 :: rest2 =>
          match pyDigitVal c2 with
          | some d2 => pyIntRest rest2 (acc * 10 + d2)
          | none => none
        | [] => none
      else if pyIsSpace c then
        if rest.all pyIsSpace then some acc else none
      else none

/-- Python `int(s)` on a string: optional surrounding Unicode whitespace,
an optional ASCII sign, then one or more Unicode decimal digits with
underscores permitted between digits; `none` models `ValueError`
(CPython rewrites whitespace and digits to ASCII with
`_PyUnicode_TransformDecimalAndSpaceToASCII`, then scans with
`_PyLong_FromString` in base 10). -/
def pyParseInt (s : String) : Option Int :=
  let cs := s.toList.dropWhile pyIsSpace
  let signDigits : Int × List Char :=
    match cs with
    | '+' :: rest => (1, rest)
    | '-' :: rest => (-1, rest)
    | rest => (1, rest)
  match signDigits.2 with
  | c :: rest =>
    match pyDigitVal c with
    | some d => (pyIntRest rest d).map fun n => signDigits.1 * (n : Int)
    | none => none
  | [] => none

/-- Lines 162-177 of `main`: tolerance defaults to 30; when a third
command-line argument is present, `int(sys.argv[2])` replaces it, and a
`ValueError` leaves the default in place after printing a warning.  Returns
the tolerance used and whether the warning was printed. -/
def mainTolerance (argv : List String) : Int × Bool :=
  if 2 < argv.length then
    match pyParseInt (argv.getD 2 "") with
    | some n => (n, false)
    | none => (30, true)
  else (30, false)

/-! ### The batch loop of `process_directory` (lines 130-148) -/

/-- The module-level function names defined by
`scripts/remove_white_background.py`. -/
def moduleFunctionNames : List String :=
  ["remove_background", "process_directory", "main"]

/-- The name `process_directory` calls for each file at line 145. -/
def batchLoopCallee : String := "remove_white_background"

/-- Outcome of the batch loop: it either completes with a success count, or
an exception escapes it, carrying the files left unprocessed. -/
inductive BatchOutcome where
  | completed (successCount : Nat)
  | uncaughtNameError (callee : String) (unprocessed : List String)
deriving DecidableEq, Repr

/-- The per-file loop of lines 130-148.  For each file, the body evaluates
the call `remove_white_background(img_file, img_file, tolerance)`: when the
callee is a defined module name the call returns a boolean (abstracted as
`callResult`) that feeds `success_count`; when it is not, Python raises
`NameError`, and no `try`/`except` in `process_directory` encloses the call
(the only `try` there, lines 137-142, covers the backup copy), so the
exception escapes and the remaining files are never processed. -/
def processDirectoryLoop (callResult : String → Bool) :
    List String → Nat → BatchOutcome
  | [], successCount => .completed successCount
  | imgFile :: rest, successCount =>
    if batchLoopCallee ∈ moduleFunctionNames then
      processDirectoryLoop callResult rest
        (if callResult imgFile then successCount + 1 else successCount)
    else .uncaughtNameError batchLoopCallee rest

/-! ### Helper lemmas -/

/-- `find?` only depends on the predicate's values on the list. -/
theorem find?_congr_mem {α : Type} (p q : α → Bool) (l : List α)
    (h : ∀ x ∈ l, p x = q x) : l.find? p = l.find? q := by
  induction l with
  | nil => rfl
  | cons x xs ih =>
    have hx : p x = q x := h x (List.mem_cons_self x xs)
    by_cases hq : q x = true
    · rw [List.find?_cons_of_pos _ (hx ▸ hq), List.find?_cons_of_pos _ hq]
    · rw [List.find?_cons_of_neg _ (by simp [hx, hq]), List.find?_cons_of_neg _ (by simp [hq]),
        ih fun y hy => h y (List.mem_cons_of_mem x hy)]

/-- Membership in the key-order pass: an element appears iff it occurs in
the remaining input and has not been seen yet. -/
theorem mem_firstOccsAux {α : Type} [DecidableEq α] (x : α) :
    ∀ (l seen : List α), x ∈ firstOccsAux l seen ↔ x ∈ l ∧ x ∉ seen
  | [], seen => by simp [firstOccsAux]
  | a :: xs, seen => by
    by_cases ha : a ∈ seen
    · rw [firstOccsAux, if_pos ha, mem_firstOccsAux x xs seen]
      by_cases hxa : x = a
      · subst hxa
        simp [ha]
      · simp [hxa]
    · rw [firstOccsAux, if_neg ha]
      simp only [List.mem_cons, mem_firstOccsAux x xs (a :: seen)]
      by_cases hxa : x = a
      · subst hxa
        simp [ha]
      · simp [hxa]

/-- `firstOccs` has the same elements as the original list. -/
theorem mem_firstOccs {α : Type} [DecidableEq α] (l : List α) (x : α) :
    x ∈ firstOccs l ↔ x ∈ l := by
  rw [firstOccs, mem_firstOccsAux]
  simp

/-- Dropping already-seen elements does not change `find?` when the
predicate rejects everything seen. -/
theorem find?_firstOccsAux {α : Type} [DecidableEq α] (p : α → Bool) :
    ∀ (l seen : List α), (∀ s ∈ seen, p s = false) →
      (firstOccsAux l seen).find? p = l.find? p
  | [], _, _ => rfl
  | a :: xs, seen, hseen => by
    by_cases ha : a ∈ seen
    · rw [firstOccsAux, if_pos ha, find?_firstOccsAux p xs seen hseen,
        List.find?_cons_of_neg _ (by simp [hseen a ha])]
    · rw [firstOccsAux, if_neg ha]
      by_cases hpa : p a = true
      · rw [List.find?_cons_of_pos _ hpa, List.find?_cons_of_pos _ hpa]
      · have hpf : p a = false := by simpa using hpa
        rw [List.find?_cons_of_neg _ hpa, List.find?_cons_of_neg _ hpa,
          find?_firstOccsAux p xs (a :: seen) ?_]
        intro s hs
        rcases List.mem_cons.mp hs with rfl | hs'
        · exact hpf
        · exact hseen s hs'

/-- Searching the list of first occurrences is the same as searching the
original list. -/
theorem find?_firstOccs {α : Type} [DecidableEq α] (p : α → Bool) (l : List α) :
    (firstOccs l).find? p = l.find? p := by
  rw [firstOccs, find?_firstOccsAux p l []]
  intro s hs
  exact absurd hs (List.not_mem_nil s)

/-- A nonempty candidate list has an element whose count in `l` is maximal. -/
theorem exists_count_max {α : Type} [DecidableEq α] (l : List α) (ys : List α)
    (h : ys ≠ []) : ∃ m ∈ ys, ∀ y ∈ ys, l.count y ≤ l.count m := by
  induction ys with
  | nil => exact absurd rfl h
  | cons x xs ih =>
    by_cases hxs : xs = []
    · subst hxs
      refine ⟨x, List.mem_cons_self _ _, ?_⟩
      intro y hy
      rcases List.mem_cons.mp hy with rfl | hy'
      · exact le_refl _
      · exact absurd hy' (List.not_mem_nil y)
    · obtain ⟨m, hm, hmax⟩ := ih hxs
      by_cases hcmp : l.count x ≤ l.count m
      · refine ⟨m, List.mem_cons_of_mem _ hm, ?_⟩
        intro y hy
        rcases List.mem_cons.mp hy with rfl | hy'
        · exact hcmp
        · exact hmax y hy'
      · refine ⟨x, List.mem_cons_self _ _, ?_⟩
        intro y hy
        rcases List.mem_cons.mp hy with rfl | hy'
        · exact le_refl _
        · exact (hmax y hy').trans (Nat.le_of_lt (Nat.not_le.mp hcmp))

/-- The selection pass of `most_common` returns the first candidate whose
count is maximal among the candidates. -/
theorem mostCommonGo_eq_find? {α : Type} [DecidableEq α] (l : List α) (ys : List α) :
    mostCommonGo l ys = ys.find? fun x => decide (∀ y ∈ ys, l.count y ≤ l.count x) := by
  induction ys with
  | nil => rfl
  | cons x xs ih =>
    by_cases hxs : xs = []
    · subst hxs
      rw [show mostCommonGo l [x] = some x from rfl, List.find?_cons_of_pos _ (by simp)]
    · obtain ⟨m0, hm0mem, hm0max⟩ := exists_count_max l xs hxs
      have hfs : (xs.find? fun z => decide (∀ y ∈ xs, l.count y ≤ l.count z)).isSome := by
        rw [List.find?_isSome]
        exact ⟨m0, hm0mem, by simpa using hm0max⟩
      obtain ⟨m, hm⟩ := Option.isSome_iff_exists.mp hfs
      have hgo : mostCommonGo l xs = some m := by rw [ih, hm]
      have hmmem : m ∈ xs := List.mem_of_find?_eq_some hm
      have hmmax : ∀ y ∈ xs, l.count y ≤ l.count m := by simpa using List.find?_some hm
      simp only [mostCommonGo, hgo]
      by_cases hlt : l.count x < l.count m
      · rw [if_pos hlt]
        have hxfalse : ¬ (∀ y ∈ x :: xs, l.count y ≤ l.count x) := by
          intro hall
          exact absurd (hall m (List.mem_cons_of_mem _ hmmem)) (by omega)
        rw [List.find?_cons_of_neg _ (by simpa using hxfalse)]
        rw [find?_congr_mem _ (fun z => decide (∀ y ∈ xs, l.count y ≤ l.count z)) xs ?_, hm]
        intro z hz
        apply decide_eq_decide.mpr
        constructor
        · intro hall y hy
          exact hall y (List.mem_cons_of_mem _ hy)
        · intro hall y hy
          rcases List.mem_cons.mp hy with rfl | hy'
          · exact Nat.le_of_lt (Nat.lt_of_lt_of_le hlt (hall m hmmem))
          · exact hall y hy'
      · rw [if_neg hlt]
        have hxtrue : ∀ y ∈ x :: xs, l.count y ≤ l.count x := by
          intro y hy
          rcases List.mem_cons.mp hy with rfl | hy'
          · exact le_refl _
          · exact (hmmax y hy').trans (Nat.not_lt.mp hlt)
        rw [List.find?_cons_of_pos _ (by simpa using hxtrue)]

/-- `Counter(l).most_common(1)` agrees with the specification's wording:
the first element of `l` whose occurrence count is maximal. -/
theorem mostCommon1_eq_specMostCommon {α : Type} [DecidableEq α] (l : List α) :
    mostCommon1 l = specMostCommon l := by
  unfold mostCommon1 specMostCommon
  rw [mostCommonGo_eq_find? l (firstOccs l),
    find?_congr_mem _ (fun x => decide (∀ y ∈ l, l.count y ≤ l.count x)) (firstOccs l) ?_,
    find?_firstOccs]
  intro z hz
  apply decide_eq_decide.mpr
  constructor
  · intro hall y hy
    exact hall y ((mem_firstOccs l y).mpr hy)
  · intro hall y hy
    exact hall y ((mem_firstOccs l y).mp hy)

/-- The classification loop is a per-pixel map together with a count of the
pixels within tolerance of the background colour. -/
theorem removeBgLoop_eq (bg : RGB) (tolerance : Int) (l : List Pixel) :
    removeBgLoop bg tolerance l =
      (l.map (classifyPixel bg tolerance),
       l.countP fun p => decide (colorDistance p.rgb bg ≤ tolerance)) := by
  induction l with
  | nil => rfl
  | cons item rest ih =>
    simp only [removeBgLoop, ih, List.map_cons, List.countP_cons]
    by_cases h : colorDistance item.rgb bg ≤ tolerance
    · simp only [classifyPixel, colorDistance, Pixel.rgb, if_pos h]
      have h' : |item.r - bg.r| + |item.g - bg.g| + |item.b - bg.b| ≤ tolerance := h
      simp [h', h]
    · have h' : ¬ |item.r - bg.r| + |item.g - bg.g| + |item.b - bg.b| ≤ tolerance := h
      cases ha : item.a with
      | none => simp [classifyPixel, colorDistance, Pixel.rgb, ha, h', h]
      | some a => simp [classifyPixel, colorDistance, Pixel.rgb, ha, h', h]

/-- For an image with `W ≥ 1`, `H ≥ 1` and `W * H` pixels, the four corner
subscripts are in bounds and the corner samples are exactly the pixels at
the corner image coordinates. -/
theorem corners_spec (W H : Nat) (data : List Pixel) (hW : 1 ≤ W) (hH : 1 ≤ H)
    (hlen : data.length = W * H) :
    corners W H data = some (specCornerSamples W H data) ∧
      specCornerSamples W H data ≠ [] := by
  obtain ⟨w, rfl⟩ : ∃ w, W = w + 1 := ⟨W - 1, by omega⟩
  obtain ⟨h, rfl⟩ : ∃ h, H = h + 1 := ⟨H - 1, by omega⟩
  have hP : (w + 1) * (h + 1) = w * h + w + h + 1 := by ring
  have hR : (w + 1) * h = w * h + h := by ring
  have hQ : h * (w + 1) = w * h + h := by ring
  have e4 : (w + 1) * (h + 1) - 1 = w * h + h + w := by omega
  have b0 : 0 < data.length := by omega
  have b1 : w < data.length := by omega
  have b2 : w * h + h < data.length := by omega
  have b3 : w * h + h + w < data.length := by omega
  constructor
  · simp only [corners, specCornerSamples, List.filterMap_cons, Nat.add_sub_cancel,
      Nat.zero_mul, Nat.zero_add, Nat.add_zero, hR, hQ, e4,
      List.getElem?_eq_getElem b0, List.getElem?_eq_getElem b1,
      List.getElem?_eq_getElem b2, List.getElem?_eq_getElem b3,
      Option.map_some', List.filterMap_nil]
  · simp only [specCornerSamples, List.filterMap_cons, Nat.add_sub_cancel,
      Nat.zero_mul, Nat.zero_add, Nat.add_zero, hQ,
      List.getElem?_eq_getElem b0, List.getElem?_eq_getElem b1,
      List.getElem?_eq_getElem b2, List.getElem?_eq_getElem b3,
      Option.map_some', List.filterMap_nil]
    simp

/-- A one-candidate-or-more selection never comes back empty. -/
theorem mostCommonGo_cons_isSome {α : Type} [DecidableEq α] (l : List α) (x : α)
    (xs : List α) : (mostCommonGo l (x :: xs)).isSome = true := by
  simp only [mostCommonGo]
  cases mostCommonGo l xs with
  | none => rfl
  | some m =>
    by_cases h : l.count x < l.count m
    · simp [h]
    · simp [h]

/-- `most_common(1)` of a nonempty list yields an element. -/
theorem mostCommon1_isSome {α : Type} [DecidableEq α] (l : List α) (h : l ≠ []) :
    (mostCommon1 l).isSome = true := by
  obtain ⟨x, xs, rfl⟩ := List.exists_cons_of_ne_nil h
  rw [mostCommon1, firstOccs, firstOccsAux, if_neg (List.not_mem_nil x)]
  exact mostCommonGo_cons_isSome _ _ _

/-! ### Claim theorems -/

/-- C1: For every pixel of the input image, the transform computes the L1
(Manhattan) distance of its RGB channels from the detected background
colour; when that distance is at most the tolerance the output pixel is
`(r, g, b, 0)` with the original RGB channels preserved (alpha forced to 0
even if the pixel carried partial alpha); otherwise the output pixel keeps
its pre-existing alpha value unchanged (255 when the source had no alpha
channel). -/
theorem pixel_classification_correct (img : Image) (tolerance : Int)
    (out : Image) (bg : RGB) (cnt : Nat)
    (hrun : removeBackground img tolerance = some (out, bg, cnt))
    (i : Nat) (p : Pixel) (hp : img.data[i]? = some p) :
    out.data[i]? = some (if colorDistance p.rgb bg ≤ tolerance
      then (⟨p.r, p.g, p.b, some 0⟩ : Pixel)
      else ⟨p.r, p.g, p.b, some (p.a.getD 255)⟩) := by
  unfold removeBackground at hrun
  cases hdet : detectBg img.width img.height (img.data.map Pixel.toRGBA) with
  | none =>
    rw [hdet] at hrun
    exact absurd hrun (by simp)
  | some bg0 =>
    rw [hdet] at hrun
    simp only [Option.some.injEq, Prod.mk.injEq] at hrun
    obtain ⟨hout, hbg, hcnt⟩ := hrun
    subst hbg
    rw [← hout]
    simp only [removeBgLoop_eq, List.map_map, List.getElem?_map, hp, Option.map_some',
      Function.comp, classifyPixel, RGBA.toPixel, Pixel.toRGBA, Pixel.rgb, colorDistance]
    split <;> rfl

/-- C1 witness: a concrete 1×1 white image at tolerance 30. -/
theorem pixel_classification_correct_witness :
    (Image.mk 1 1 [Pixel.mk 255 255 255 (some 0)]).data[0]? =
      some (if colorDistance (Pixel.mk 255 255 255 none).rgb (RGB.mk 255 255 255) ≤ 30
        then (⟨255, 255, 255, some 0⟩ : Pixel)
        else ⟨255, 255, 255, some ((none : Option Int).getD 255)⟩) :=
  pixel_classification_correct ⟨1, 1, [⟨255, 255, 255, none⟩]⟩ 30
    ⟨1, 1, [⟨255, 255, 255, some 0⟩]⟩ ⟨255, 255, 255⟩ 1 (by decide) 0
    ⟨255, 255, 255, none⟩ (by decide)

/-- C2: background detection samples exactly the four corner pixels
top-left `(0,0)`, top-right `(W-1,0)`, bottom-left `(0,H-1)`, bottom-right
`(W-1,H-1)` of an image with `W ≥ 1` and `H ≥ 1` (coordinate `(x, y)` at
flattened index `y * W + x`), takes each sample's RGB triple with alpha
dropped, and returns the triple with the highest occurrence count among the
four, breaking ties by first-encountered order in the sampling sequence. -/
theorem detection_is_corner_majority (W H : Nat) (data : List Pixel)
    (hW : 1 ≤ W) (hH : 1 ≤ H) (hlen : data.length = W * H) :
    detectBg W H data = specDetectBg W H data := by
  obtain ⟨hc, -⟩ := corners_spec W H data hW hH hlen
  rw [detectBg, hc, Option.some_bind, specDetectBg, mostCommon1_eq_specMostCommon]

/-- C2 witness: the spec's 2×2 scenario. -/
theorem detection_is_corner_majority_witness :
    detectBg 2 2 [⟨255, 255, 255, none⟩, ⟨255, 255, 255, none⟩,
        ⟨0, 0, 0, none⟩, ⟨10, 10, 10, none⟩] =
      specDetectBg 2 2 [⟨255, 255, 255, none⟩, ⟨255, 255, 255, none⟩,
        ⟨0, 0, 0, none⟩, ⟨10, 10, 10, none⟩] :=
  detection_is_corner_majority 2 2
    [⟨255, 255, 255, none⟩, ⟨255, 255, 255, none⟩, ⟨0, 0, 0, none⟩, ⟨10, 10, 10, none⟩]
    (by decide) (by decide) (by decide)

/-- C4: the output image has exactly the width, height and pixel count of
the input, and the RGB channels of every output pixel equal those of the
corresponding input pixel — only alpha may change. -/
theorem rgb_and_dimensions_preserved (img : Image) (tolerance : Int)
    (out : Image) (bg : RGB) (cnt : Nat)
    (hrun : removeBackground img tolerance = some (out, bg, cnt)) :
    out.width = img.width ∧ out.height = img.height ∧
      out.data.length = img.data.length ∧
      ∀ i : Nat, (out.data[i]?).map Pixel.rgb = (img.data[i]?).map Pixel.rgb := by
  unfold removeBackground at hrun
  cases hdet : detectBg img.width img.height (img.data.map Pixel.toRGBA) with
  | none =>
    rw [hdet] at hrun
    exact absurd hrun (by simp)
  | some bg0 =>
    rw [hdet] at hrun
    simp only [Option.some.injEq, Prod.mk.injEq] at hrun
    obtain ⟨hout, hbg, hcnt⟩ := hrun
    rw [← hout]
    refine ⟨rfl, rfl, by simp [removeBgLoop_eq], ?_⟩
    intro i
    simp only [removeBgLoop_eq, List.map_map, List.getElem?_map]
    cases hp : img.data[i]? with
    | none => rfl
    | some p =>
      simp only [Option.map_some', Function.comp, classifyPixel, RGBA.toPixel,
        Pixel.toRGBA, Pixel.rgb]
      split <;> rfl

/-- C4 witness: the spec's 2×2 scenario at tolerance 30. -/
theorem rgb_and_dimensions_preserved_witness :
    (Image.mk 2 2 [⟨255, 255, 255, some 0⟩, ⟨255, 255, 255, some 0⟩,
        ⟨0, 0, 0, some 255⟩, ⟨10, 10, 10, some 255⟩]).width =
      (Image.mk 2 2 [⟨255, 255, 255, none⟩, ⟨255, 255, 255, none⟩,
        ⟨0, 0, 0, none⟩, ⟨10, 10, 10, none⟩]).width ∧
    (Image.mk 2 2 [⟨255, 255, 255, some 0⟩, ⟨255, 255, 255, some 0⟩,
        ⟨0, 0, 0, some 255⟩, ⟨10, 10, 10, some 255⟩]).height =
      (Image.mk 2 2 [⟨255, 255, 255, none⟩, ⟨255, 255, 255, none⟩,
        ⟨0, 0, 0, none⟩, ⟨10, 10, 10, none⟩]).height ∧
    (Image.mk 2 2 [⟨255, 255, 255, some 0⟩, ⟨255, 255, 255, some 0⟩,
        ⟨0, 0, 0, some 255⟩, ⟨10, 10, 10, some 255⟩]).data.length =
      (Image.mk 2 2 [⟨255, 255, 255, none⟩, ⟨255, 255, 255, none⟩,
        ⟨0, 0, 0, none⟩, ⟨10, 10, 10, none⟩]).data.length ∧
    ∀ i : Nat,
      ((Image.mk 2 2 [⟨255, 255, 255, some 0⟩, ⟨255, 255, 255, some 0⟩,
        ⟨0, 0, 0, some 255⟩, ⟨10, 10, 10, some 255⟩]).data[i]?).map Pixel.rgb =
      ((Image.mk 2 2 [⟨255, 255, 255, none⟩, ⟨255, 255, 255, none⟩,
        ⟨0, 0, 0, none⟩, ⟨10, 10, 10, none⟩]).data[i]?).map Pixel.rgb :=
  rgb_and_dimensions_preserved
    ⟨2, 2, [⟨255, 255, 255, none⟩, ⟨255, 255, 255, none⟩,
      ⟨0, 0, 0, none⟩, ⟨10, 10, 10, none⟩]⟩ 30
    ⟨2, 2, [⟨255, 255, 255, some 0⟩, ⟨255, 255, 255, some 0⟩,
      ⟨0, 0, 0, some 255⟩, ⟨10, 10, 10, some 255⟩]⟩ ⟨255, 255, 255⟩ 2 (by decide)

/-- C5: the classification threshold is inclusive and strict: a pixel at L1
distance exactly the tolerance takes the transparent branch (alpha 0), and
a pixel at distance tolerance + 1 takes the opaque branch, keeping its
pre-existing alpha (255 when it had none) rather than being forced to 0. -/
theorem threshold_boundary (bg : RGB) (tolerance : Int) (p q : Pixel)
    (hp : colorDistance p.rgb bg = tolerance)
    (hq : colorDistance q.rgb bg = tolerance + 1) :
    (classifyPixel bg tolerance p).a = 0 ∧
      classifyPixel bg tolerance q = ⟨q.r, q.g, q.b, q.a.getD 255⟩ := by
  constructor
  · rw [classifyPixel, if_pos (le_of_eq hp)]
  · rw [classifyPixel, if_neg (by rw [hq]; omega)]
    cases hqa : q.a <;> simp [hqa]

/-- C5 witness: background `(0,0,0)`, tolerance 30, pixels at distances 30
and 31. -/
theorem threshold_boundary_witness :
    (classifyPixel ⟨0, 0, 0⟩ 30 ⟨30, 0, 0, none⟩).a = 0 ∧
      classifyPixel ⟨0, 0, 0⟩ 30 ⟨31, 0, 0, some 7⟩ =
        ⟨31, 0, 0, (some (7 : Int)).getD 255⟩ :=
  threshold_boundary ⟨0, 0, 0⟩ 30 ⟨30, 0, 0, none⟩ ⟨31, 0, 0, some 7⟩
    (by decide) (by decide)

/-- C6: for any image with `W ≥ 1` and `H ≥ 1` (including `W = 1` or
`H = 1`, where corner indices coincide) all four corner subscripts are in
bounds and detection yields a colour; for a 1×1 image it returns that
single pixel's RGB triple. -/
theorem detection_total_and_single_pixel (W H : Nat) (data : List Pixel)
    (p : Pixel) (hW : 1 ≤ W) (hH : 1 ≤ H) (hlen : data.length = W * H) :
    (detectBg W H data).isSome = true ∧ detectBg 1 1 [p] = some p.rgb := by
  constructor
  · obtain ⟨hc, hne⟩ := corners_spec W H data hW hH hlen
    rw [detectBg, hc, Option.some_bind]
    exact mostCommon1_isSome _ hne
  · simp [detectBg, corners, mostCommon1, firstOccs, firstOccsAux, mostCommonGo]

/-- C6 witness: a 3×1 image (corner indices coincide pairwise) and a
concrete single pixel. -/
theorem detection_total_and_single_pixel_witness :
    (detectBg 3 1 [⟨1, 2, 3, none⟩, ⟨4, 5, 6, some 9⟩, ⟨7, 8, 9, none⟩]).isSome = true ∧
      detectBg 1 1 [⟨1, 2, 3, some 4⟩] = some (Pixel.mk 1 2 3 (some 4)).rgb :=
  detection_total_and_single_pixel 3 1
    [⟨1, 2, 3, none⟩, ⟨4, 5, 6, some 9⟩, ⟨7, 8, 9, none⟩] ⟨1, 2, 3, some 4⟩
    (by decide) (by decide) (by decide)

/-- C7: `pixels_changed`, reported alongside the transformed image, equals
exactly the number of pixels whose L1 distance from the detected background
colour is at most the tolerance. -/
theorem changed_count_correct (img : Image) (tolerance : Int)
    (out : Image) (bg : RGB) (cnt : Nat)
    (hrun : removeBackground img tolerance = some (out, bg, cnt)) :
    cnt = img.data.countP fun p => decide (colorDistance p.rgb bg ≤ tolerance) := by
  unfold removeBackground at hrun
  cases hdet : detectBg img.width img.height (img.data.map Pixel.toRGBA) with
  | none =>
    rw [hdet] at hrun
    exact absurd hrun (by simp)
  | some bg0 =>
    rw [hdet] at hrun
    simp only [Option.some.injEq, Prod.mk.injEq] at hrun
    obtain ⟨hout, hbg, hcnt⟩ := hrun
    subst hbg
    rw [← hcnt]
    simp only [removeBgLoop_eq, List.countP_map]
    rfl

/-- C7 witness: the spec's 2×2 scenario has exactly 2 transparent pixels. -/
theorem changed_count_correct_witness :
    2 = List.countP
      (fun p : Pixel => decide (colorDistance p.rgb (RGB.mk 255 255 255) ≤ 30))
      [⟨255, 255, 255, none⟩, ⟨255, 255, 255, none⟩,
        ⟨0, 0, 0, none⟩, ⟨10, 10, 10, none⟩] :=
  changed_count_correct
    ⟨2, 2, [⟨255, 255, 255, none⟩, ⟨255, 255, 255, none⟩,
      ⟨0, 0, 0, none⟩, ⟨10, 10, 10, none⟩]⟩ 30
    ⟨2, 2, [⟨255, 255, 255, some 0⟩, ⟨255, 255, 255, some 0⟩,
      ⟨0, 0, 0, some 255⟩, ⟨10, 10, 10, some 255⟩]⟩ ⟨255, 255, 255⟩ 2 (by decide)

/-- C8: the transform is deterministic — two invocations on the same image
and tolerance agree — and per-pixel independent: the classification loop is
a map, so each output pixel depends only on the input pixel at the same
index (and the fixed background colour and tolerance), with the changed
count a pure count over the input. -/
theorem deterministic_and_pixel_independent (img : Image) (tolerance : Int)
    (bg : RGB) (data : List Pixel) (i : Nat) :
    removeBackground img tolerance = removeBackground img tolerance ∧
      ((removeBgLoop bg tolerance data).1)[i]? =
        (data[i]?).map (classifyPixel bg tolerance) ∧
      (removeBgLoop bg tolerance data).2 =
        data.countP fun p => decide (colorDistance p.rgb bg ≤ tolerance) := by
  refine ⟨rfl, ?_, ?_⟩
  · rw [removeBgLoop_eq]
    exact List.getElem?_map _ _ _
  · rw [removeBgLoop_eq]

/-- C9: when the second CLI argument does not parse as an integer, a
warning is printed and the default tolerance 30 is used; when it parses,
the parsed integer is the tolerance and no warning is printed. -/
theorem cli_tolerance_parsing (prog file arg : String) :
    (pyParseInt arg = none → mainTolerance [prog, file, arg] = (30, true)) ∧
      ∀ n : Int, pyParseInt arg = some n → mainTolerance [prog, file, arg] = (n, false) := by
  constructor
  · intro h
    simp [mainTolerance, List.getD, h]
  · intro n h
    simp [mainTolerance, List.getD, h]

/-- C9 witness: a non-integer argument falls back to 30 with a warning; an
integer argument is used as given. -/
theorem cli_tolerance_parsing_witness :
    mainTolerance ["prog", "zombie.png", "abc"] = (30, true) ∧
      mainTolerance ["prog", "zombie.png", "45"] = (45, false) :=
  ⟨(cli_tolerance_parsing "prog" "zombie.png" "abc").1 (by decide),
   (cli_tolerance_parsing "prog" "zombie.png" "45").2 45 (by decide)⟩

/-- C10: with `output_path` omitted, the result is written to a sibling
path formed by inserting `_transparent` before the input file's extension
(`a.png` becomes `a_transparent.png`), which is never the input path
itself, so the input file is not overwritten. -/
theorem default_output_path_fresh (p : String) :
    defaultOutputPath p ≠ p ∧ defaultOutputPath "a.png" = "a_transparent.png" := by
  constructor
  · intro hcontra
    have hsplit : (p.toList.take (splitextPos p.toList)).length
        + (p.toList.drop (splitextPos p.toList)).length = p.toList.length := by
      rw [← List.length_append, List.take_append_drop]
    have h12 : ("_transparent".toList).length = 12 := rfl
    have hplen : p.length = p.toList.length := rfl
    have hout : (defaultOutputPath p).length
        = (p.toList.take (splitextPos p.toList)).length
          + ("_transparent".toList).length
          + (p.toList.drop (splitextPos p.toList)).length := by
      show (p.toList.take (splitextPos p.toList) ++ "_transparent".toList
        ++ p.toList.drop (splitextPos p.toList)).length = _
      simp only [List.length_append]
    have hcl := congrArg String.length hcontra
    omega
  · rfl

/-- C3 (code bug): the per-file loop of `process_directory` invokes the
name `remove_white_background`, which is not among the module's defined
function names, so the first iteration raises an uncaught `NameError` and
the remaining files of the batch are never processed. -/
theorem batch_loop_raises_at_first_file (callResult : String → Bool)
    (imgFile : String) (rest : List String) (successCount : Nat) :
    processDirectoryLoop callResult (imgFile :: rest) successCount =
        .uncaughtNameError batchLoopCallee rest ∧
      batchLoopCallee ∉ moduleFunctionNames := by
  have h : batchLoopCallee ∉ moduleFunctionNames := by decide
  exact ⟨by rw [processDirectoryLoop, if_neg h], h⟩

end RemoveWhiteBg
